import Mathlib

/-!
Verification development for the `file_organizer` repository (single source
file `src/file_organizer.py`).

The development shallowly embeds the core of the program:

* the extension classifier `get_categorized_paths`,
* the chunked hasher `calculate_file_hash` (digest abstracted as a parameter,
  read failure modelled by `Option`),
* the collision-free name allocator inside `copy_file_with_feedback`
  (the probing `while` loop is embedded with explicit fuel, together with a
  proof that the chosen fuel always suffices),
* the pre-flight counter `count_files_in_folder` and the traversal loop of
  `organize_files_in_folder`, with `os.walk` modelled on a rose tree of
  directories and the file-system outcomes (directory creation, copy,
  archive append, read success) modelled as boolean fields of the
  per-file/environment records.

Machine-level details (actual bytes on disk, tar format, GUI) are outside the
embedding; every branch of the translated control flow mirrors the Python
source line by line.
-/

namespace FileOrganizer

/-! ## Configuration constants (file_organizer.py lines 13-16) -/

def DUPLICATES_FOLDER_NAME : String := "duplicates"

def NO_EXTENSION_FOLDER_NAME : String := "_no_extension_"

def HIDDEN_OR_CONFIG_FOLDER_NAME : String := "_hidden_or_config_"

def OTHER_FOLDER_NAME : String := "other"

/-! ## Model of Python `str.lower` (ASCII case mapping, per character) -/

/-- Model of Python lower-casing of one character, restricted to the ASCII
range (all extensions in the category table are ASCII). -/
def lowerChar (c : Char) : Char :=
  if 65 ≤ c.toNat && c.toNat ≤ 90 then Char.ofNat (c.toNat + 32) else c

/-- Model of Python `str.lower`. -/
def pyLower (s : String) : String :=
  String.mk (s.data.map lowerChar)

/-! ## File type grouping (lines 28-36), in insertion order of the dict -/

def FILE_TYPE_GROUPS : List (String × List String) :=
  [("images", [".jpg", ".jpeg", ".png", ".gif", ".bmp", ".tiff", ".webp", ".ico", ".svg"]),
   ("documents", [".pdf", ".doc", ".docx", ".txt", ".rtf", ".odt", ".ppt", ".pptx", ".xls",
                  ".xlsx", ".csv", ".md", ".json", ".xml"]),
   ("audio", [".mp3", ".wav", ".aac", ".flac", ".ogg", ".wma", ".m4a"]),
   ("video", [".mp4", ".mov", ".avi", ".mkv", ".wmv", ".flv", ".webm"]),
   ("archives", [".zip", ".rar", ".7z", ".tar", ".gz", ".bz2", ".xz"]),
   ("executables", [".exe", ".msi", ".dmg", ".app", ".bat", ".sh"]),
   ("code", [".py", ".js", ".html", ".css", ".java", ".c", ".cpp", ".h", ".cs", ".php",
             ".rb", ".go", ".swift", ".kt", ".ts", ".jsx", ".tsx", ".vue", ".json", ".xml",
             ".yml", ".yaml", ".toml", ".ini", ".cfg"])]

/-! ## Classifier `get_categorized_paths` (lines 96-135) -/

/-- Model of Python `s.startswith(".")`: the first character is a dot. -/
def startsWithDot (s : String) : Bool :=
  match s.data with
  | c :: _ => c == '.'
  | [] => false

/-- Translation of `get_categorized_paths(file_extension, file_name_proper)`:
normalize the extension to lower case, then the four cases of the source. -/
def get_categorized_paths (file_extension file_name_proper : String) :
    String × String :=
  let normalized_ext := pyLower file_extension
  if normalized_ext == "" then
    (OTHER_FOLDER_NAME, NO_EXTENSION_FOLDER_NAME)
  else if file_name_proper == "" && startsWithDot normalized_ext then
    (OTHER_FOLDER_NAME, HIDDEN_OR_CONFIG_FOLDER_NAME)
  else
    let ext_without_dot := normalized_ext.drop 1
    match FILE_TYPE_GROUPS.find? (fun g => g.2.contains normalized_ext) with
    | some g => (g.1, ext_without_dot)
    | none => (OTHER_FOLDER_NAME, ext_without_dot)

/-! ## Model of `os.path.splitext` on a bare file name (no separators)

CPython splits at the last dot, unless every character before that dot is
itself a dot (so a leading-dot name such as `.bashrc` keeps an empty
extension). -/

/-- Index of the last dot of a character list (Python `rfind`). -/
def lastDotIdx (cs : List Char) : Option Nat :=
  (cs.reverse.findIdx? (fun c => c == '.')).map (fun j => cs.length - 1 - j)

/-- Model of `os.path.splitext` restricted to plain file names:
returns the pair (file_name_proper, file_extension). -/
def splitext (s : String) : String × String :=
  match lastDotIdx s.data with
  | none => (s, "")
  | some d =>
    if (s.data.take d).all (fun c => c == '.') then (s, "")
    else (String.mk (s.data.take d), String.mk (s.data.drop d))

example : splitext "a.txt" = ("a", ".txt") := by decide
example : splitext ".bashrc" = (".bashrc", "") := by decide
example : splitext "archive.tar.gz" = ("archive.tar", ".gz") := by decide
example : splitext "notes" = ("notes", "") := by decide

example : get_categorized_paths "" "readme" = ("other", "_no_extension_") := by decide
example : get_categorized_paths ".bashrc" "" = ("other", "_hidden_or_config_") := by decide
example : get_categorized_paths ".JPG" "photo" = ("images", "jpg") := by decide
example : get_categorized_paths ".xyz" "f" = ("other", "xyz") := by decide
example : get_categorized_paths ".json" "x" = ("documents", "json") := by decide

/-! ## Name allocation inside `copy_file_with_feedback` (lines 180-192)

The Python code probes `f"{base}_copy{counter}{ext}"` for `counter = 1, 2, ...`
until the name is unused.  The `while` loop is embedded with explicit fuel;
`existing.length + 1` units of fuel always suffice (proved below), so the
fuelled function is a faithful rendering of the loop. -/

/-- Decimal digits, least significant first, with structural fuel
(`fuel > n` always suffices since the value is divided by ten each step). -/
def toDigitsRevGo (fuel n : Nat) : List Nat :=
  match fuel with
  | 0 => []
  | f + 1 => if n < 10 then [n] else (n % 10) :: toDigitsRevGo f (n / 10)

/-- Decimal digits of `n`, least significant first (model of Python `str`). -/
def toDigitsRev (n : Nat) : List Nat := toDigitsRevGo (n + 1) n

/-- Character for the decimal digit `d`. -/
def digitChar (d : Nat) : Char := Char.ofNat (48 + d)

/-- Decimal rendering of a natural number (model of Python `str(counter)`). -/
def natRepr (n : Nat) : String :=
  String.mk (((toDigitsRev n).map digitChar).reverse)

/-- The candidate name `f"{base}_copy{counter}{ext}"`. -/
def copyName (base ext : String) (counter : Nat) : String :=
  base ++ "_copy" ++ natRepr counter ++ ext

/-- The probing `while` loop of lines 187-190, with explicit fuel.
`existing` is the set of names already present in the destination folder. -/
def probeLoop (existing : List String) (base ext : String) (counter fuel : Nat) :
    Option Nat :=
  match fuel with
  | 0 => none
  | f + 1 =>
    if existing.contains (copyName base ext counter) then
      probeLoop existing base ext (counter + 1) f
    else some counter

/-- Name-allocation logic of `copy_file_with_feedback` (lines 180-192): keep
the desired name if it is free, otherwise probe `base_copy1.ext`,
`base_copy2.ext`, ... -/
def allocate (existing : List String) (file_name : String) : Option String :=
  if existing.contains file_name then
    let p := splitext file_name
    (probeLoop existing p.1 p.2 1 (existing.length + 1)).map (copyName p.1 p.2)
  else some file_name

example : natRepr 12 = "12" := by decide
example : allocate ["a.txt", "a_copy1.txt"] "a.txt" = some "a_copy2.txt" := by decide
example : allocate ["a.txt"] "b.txt" = some "b.txt" := by decide

/-! ## Hasher `calculate_file_hash` (lines 139-157)

The file read is modelled by an `Option (List (List Nat))`: `none` when the
read raises (permission error, vanished file, I/O error) — the function then
returns the failure signal `none` instead of propagating an exception — and
`some blocks` for a successful chunked read.  The SHA-256 digest itself is an
external primitive and is abstracted as a `digest` parameter applied to the
concatenation of the blocks. -/

/-- Translation of `calculate_file_hash`. -/
def calculate_file_hash (digest : List Nat → String)
    (readResult : Option (List (List Nat))) : Option String :=
  match readResult with
  | none => none
  | some blocks => some (digest blocks.flatten)

/-! ## Per-file traversal data

A `FileItem` carries everything the loop body of `organize_files_in_folder`
observes about one enumerated file: its name, the outcome of reading it for
hashing, whether its path lies inside the just-created output root
(the `startswith` test of line 320), and the outcomes of the file-system
operations the body may attempt on it. -/

structure FileItem where
  name : String
  readResult : Option (List (List Nat))
  inOutputRoot : Bool
  mkdirTopOk : Bool
  mkdirSubOk : Bool
  writeOk : Bool
  writtenPath : String
  deriving DecidableEq, Repr

/-- Mutable state of the traversal loop: the duplicate-detection table
`known_file_hashes`, the three counters, the error list, and the log of
successful output writes as (area, file name) pairs. -/
structure OrgState where
  known : List (String × String)
  processed : Nat
  written : Nat
  duplicates : Nat
  errors : List String
  writes : List (String × String)
  deriving DecidableEq, Repr

/-- Initial loop state, carrying the error messages accumulated by setup. -/
def initState (errs : List String) : OrgState :=
  ⟨[], 0, 0, 0, errs, []⟩

/-! ### Error message strings (contents abbreviated, one message per append) -/

def msgHashFail (name : String) : String :=
  "Could not calculate hash for " ++ name ++ ". Skipping."

def msgDupArchiveFail (name : String) : String :=
  "Error adding duplicate " ++ name ++ " to archive"

def msgCopyFail (name : String) : String :=
  "Error copying file " ++ name

def msgArchiveAddFail (name : String) : String :=
  "Error adding file " ++ name ++ " to archive"

def msgMkdirFail (p : String) : String :=
  "Error creating directory " ++ p

def msgSkipNoTop (name : String) : String :=
  "Skipping file " ++ name ++ " as its top-level category folder could not be created."

def msgSkipNoSub (name : String) : String :=
  "Skipping file " ++ name ++ " as its sub-folder could not be created."

def msgNotRecorded (name : String) : String :=
  "Failed to copy " ++ name ++ ", it will not be recorded as an original for duplicate checking."

/-- Model of `os.path.join` for two components. -/
def joinPath (a b : String) : String := a ++ "/" ++ b

/-- The skip test of line 320: only in uncompressed mode, a file whose path
lies inside the just-created output folder is skipped silently. -/
def skippedFile (compress_output_flag : Bool) (f : FileItem) : Bool :=
  !compress_output_flag && f.inOutputRoot

/-- Translation of the loop body of `organize_files_in_folder`
(lines 306-394) for one enumerated file. -/
def processFile (digest : List Nat → String) (compress_output_flag : Bool)
    (s : OrgState) (f : FileItem) : OrgState :=
  if skippedFile compress_output_flag f then s
  else
    let s1 : OrgState := { s with processed := s.processed + 1 }
    match calculate_file_hash digest f.readResult with
    | none => { s1 with errors := s1.errors ++ [msgHashFail f.name] }
    | some file_hash =>
      match s1.known.lookup file_hash with
      | some _ =>
        -- lines 336-355: duplicate handling, never touches the hash table
        if compress_output_flag then
          if f.writeOk then
            { s1 with duplicates := s1.duplicates + 1,
                      writes := s1.writes ++ [(DUPLICATES_FOLDER_NAME, f.name)] }
          else { s1 with errors := s1.errors ++ [msgDupArchiveFail f.name] }
        else
          if f.writeOk then
            { s1 with duplicates := s1.duplicates + 1,
                      writes := s1.writes ++ [(DUPLICATES_FOLDER_NAME, f.name)] }
          else { s1 with errors := s1.errors ++ [msgCopyFail f.name] }
      | none =>
        -- lines 357-394: categorize and write an original
        let sp := splitext f.name
        let cat := get_categorized_paths sp.2 sp.1
        if compress_output_flag then
          if f.writeOk then
            { s1 with
              known := s1.known ++ [(file_hash, joinPath (joinPath cat.1 cat.2) f.name)],
              written := s1.written + 1,
              writes := s1.writes ++ [(joinPath cat.1 cat.2, f.name)] }
          else { s1 with errors := s1.errors ++ [msgArchiveAddFail f.name] }
        else
          if !f.mkdirTopOk then
            { s1 with errors := s1.errors ++ [msgMkdirFail cat.1, msgSkipNoTop f.name] }
          else if !f.mkdirSubOk then
            { s1 with errors := s1.errors ++ [msgMkdirFail cat.2, msgSkipNoSub f.name] }
          else if f.writeOk then
            { s1 with
              known := s1.known ++ [(file_hash, f.writtenPath)],
              written := s1.written + 1,
              writes := s1.writes ++ [(joinPath cat.1 cat.2, f.name)] }
          else
            { s1 with errors := s1.errors ++ [msgCopyFail f.name, msgNotRecorded f.name] }

/-- The traversal loop over the enumerated files, in traversal order. -/
def runFiles (digest : List Nat → String) (compress_output_flag : Bool)
    (s : OrgState) (files : List FileItem) : OrgState :=
  files.foldl (processFile digest compress_output_flag) s

/-! ## Model of `os.walk` with in-place `dirnames` pruning

A directory tree is a rose tree; `os.walk` enumerates the files of the
current directory, prunes the list of child directory names with the
in-place filter of lines 219 / 301, and recurses (top-down, deterministic
left-to-right order) into the surviving children. -/

inductive FTree where
  | node (dname : String) (files : List FileItem) (subs : List FTree) : FTree

def FTree.dname : FTree → String
  | .node n _ _ => n

def FTree.filesOf : FTree → List FileItem
  | .node _ fs _ => fs

def FTree.subsOf : FTree → List FTree
  | .node _ _ s => s

mutual

/-- Files enumerated by `os.walk` over `t`, pruning descent into every child
directory whose name satisfies `prune` (the top directory itself is never
pruned, matching `os.walk`). -/
def walkFiles (prune : String → Bool) : FTree → List FileItem
  | .node _ fs subs => fs ++ walkList prune subs

/-- Files enumerated below a list of sibling directories, in order. -/
def walkList (prune : String → Bool) : List FTree → List FileItem
  | [] => []
  | t :: ts => (if prune t.dname then [] else walkFiles prune t) ++ walkList prune ts

end

mutual

/-- No directory anywhere strictly below the root of `t` has a name
satisfying `bad`. -/
def noPruned (bad : String → Bool) : FTree → Bool
  | .node _ _ subs => noPrunedList bad subs

def noPrunedList (bad : String → Bool) : List FTree → Bool
  | [] => true
  | t :: ts => (!bad t.dname && noPruned bad t) && noPrunedList bad ts

end

/-- Exclusion list of `count_files_in_folder` (line 215): all category names
plus the duplicates folder name and the catch-all name. -/
def countExclusions : List String :=
  FILE_TYPE_GROUPS.map Prod.fst ++ [DUPLICATES_FOLDER_NAME, OTHER_FOLDER_NAME]

/-- Pruning predicate used by `count_files_in_folder` (line 219). -/
def countPrune (d : String) : Bool := countExclusions.contains d

/-- Pruning predicate of the real traversal (lines 300-301): nothing is
pruned in archive mode; in folder mode, every directory named like the output
root basename and every directory named `duplicates` is pruned. -/
def orgPrune (compress_output_flag : Bool) (outBase : String) (d : String) : Bool :=
  if compress_output_flag then false
  else d == outBase || d == DUPLICATES_FOLDER_NAME

/-- Translation of `count_files_in_folder` (lines 208-223): walk with the
counting exclusions and count every enumerated file. -/
def count_files_in_folder (t : FTree) : Nat :=
  (walkFiles countPrune t).length

/-! ## Setup, finalize and the whole `organize_files_in_folder` -/

/-- Environment outcomes observed by the setup and finalize phases. -/
structure Env where
  sourceIsDir : Bool
  sourcePath : String
  sourceBasename : String
  destIsDir : Bool
  destExists : Bool
  destCreateOk : Bool
  destRoot : String
  timestamp : String
  archiveOpenOk : Bool
  rootOutExists : Bool
  rootOutCreateOk : Bool
  dupDirExists : Bool
  dupDirCreateOk : Bool
  closeOk : Bool
  removeOk : Bool
  deriving DecidableEq, Repr

def msgSourceInvalid (p : String) : String :=
  "The source path " ++ p ++ " is not a valid directory."

def msgDestInvalid (p : String) : String :=
  "The destination path " ++ p ++ " is not a valid directory and could not be created."

def msgArchiveOpenFail (p : String) : String :=
  "Error opening archive file " ++ p

def msgCloseFail (p : String) : String :=
  "Error closing archive file " ++ p

def msgRemovedIncomplete (p : String) : String :=
  "Removed incomplete archive due to error: " ++ p

def msgRemoveIncompleteFail (p : String) : String :=
  "Failed to remove incomplete archive " ++ p

def msgRemoveEmptyFail (p : String) : String :=
  "Failed to remove empty archive " ++ p

/-- Translation of `create_directory_if_not_exists` (lines 159-172): succeeds
silently when the directory already exists, otherwise attempts creation and
records one error message on failure. -/
def create_directory_if_not_exists (dirExists createOk : Bool) (p : String)
    (errs : List String) : Bool × List String :=
  if !dirExists then
    if createOk then (true, errs)
    else (false, errs ++ [msgMkdirFail p])
  else (true, errs)

/-- Output name `file_organizer_<source_basename>_<timestamp>`. -/
def outputBaseName (env : Env) : String :=
  "file_organizer_" ++ env.sourceBasename ++ "_" ++ env.timestamp

/-- Translation of `organize_files_in_folder` (lines 226-425) over an
already-enumerated list of files.  The result tuple is
(processed, written, duplicates, errors, final_output_path). -/
def organize_files_in_folder (env : Env) (compress_output_flag : Bool)
    (digest : List Nat → String) (files : List FileItem) :
    Nat × Nat × Nat × List String × String :=
  if !env.sourceIsDir then
    (0, 0, 0, [msgSourceInvalid env.sourcePath], "")
  else
    let destCheck :=
      if !env.destIsDir then
        let r := create_directory_if_not_exists env.destExists env.destCreateOk
          env.destRoot []
        if !r.1 then (false, r.2 ++ [msgDestInvalid env.destRoot])
        else (true, r.2)
      else (true, [])
    if !destCheck.1 then
      (0, 0, 0, destCheck.2, "")
    else
      if compress_output_flag then
        let final := joinPath env.destRoot (outputBaseName env ++ ".tar.xz")
        if !env.archiveOpenOk then
          (0, 0, 0, destCheck.2 ++ [msgArchiveOpenFail final], "")
        else
          let st := runFiles digest true (initState destCheck.2) files
          -- lines 397-410: close the archive, dropping it on a close error
          let closed :=
            if env.closeOk then (st.errors, final)
            else
              (st.errors ++ [msgCloseFail final] ++
                (if env.removeOk then [msgRemovedIncomplete final]
                 else [msgRemoveIncompleteFail final]), "")
          -- lines 412-419: remove the archive when no file was processed
          let finalized :=
            if st.processed == 0 && !(closed.2 == "") then
              if env.removeOk then (closed.1, "")
              else (closed.1 ++ [msgRemoveEmptyFail closed.2], closed.2)
            else closed
          (st.processed, st.written, st.duplicates, finalized.1, finalized.2)
      else
        let root := joinPath env.destRoot (outputBaseName env)
        let rootCheck := create_directory_if_not_exists env.rootOutExists
          env.rootOutCreateOk root destCheck.2
        if !rootCheck.1 then
          (0, 0, 0, rootCheck.2, "")
        else
          let dupCheck := create_directory_if_not_exists env.dupDirExists
            env.dupDirCreateOk (joinPath root DUPLICATES_FOLDER_NAME) rootCheck.2
          if !dupCheck.1 then
            (0, 0, 0, dupCheck.2, "")
          else
            let st := runFiles digest false (initState dupCheck.2) files
            (st.processed, st.written, st.duplicates, st.errors, root)

/-! ## Basic lemmas about the character and string models -/

theorem toNat_charOfNat {n : Nat} (h : n < 55296) : (Char.ofNat n).toNat = n := by
  have hv : n.isValidChar := Or.inl h
  simp only [Char.ofNat, dif_pos hv, Char.ofNatAux, Char.toNat]
  exact BitVec.toNat_ofNatLt _ _

theorem lowerChar_idem (c : Char) : lowerChar (lowerChar c) = lowerChar c := by
  by_cases h : (65 ≤ c.toNat && c.toNat ≤ 90) = true
  · simp only [Bool.and_eq_true, decide_eq_true_eq] at h
    have h1 : lowerChar c = Char.ofNat (c.toNat + 32) := by
      simp [lowerChar, h.1, h.2]
    have h2 : (lowerChar c).toNat = c.toNat + 32 := by
      rw [h1]; exact toNat_charOfNat (by omega)
    rw [h1, ← h1, lowerChar, h2]
    simp only [show (65 ≤ c.toNat + 32 && c.toNat + 32 ≤ 90) = false by
      simp only [Bool.and_eq_false_iff, decide_eq_false_iff_not]; omega]
    simp
  · simp only [Bool.not_eq_true] at h
    simp [lowerChar, h]

theorem pyLower_idem (s : String) : pyLower (pyLower s) = pyLower s := by
  simp only [pyLower, List.map_map]
  exact congrArg String.mk (List.map_congr_left fun c _ => lowerChar_idem c)

/-!
## Claim C2 - classifier edge cases and totality

The spec names the sub-folders by the configuration constants
`NO_EXTENSION_FOLDER_NAME` and `HIDDEN_OR_CONFIG_FOLDER_NAME`.
-/

/-- C2: the classifier is a total function over all (extension, stem) pairs
and returns (other, no_extension) for an empty extension, (other,
hidden_or_config) for a dotfile with empty stem, (images, jpg) for ".JPG"
(case-insensitively), and (other, xyz) for the ungrouped extension ".xyz". -/
theorem c2_classifier_cases :
    get_categorized_paths "" "readme" = (OTHER_FOLDER_NAME, NO_EXTENSION_FOLDER_NAME) ∧
    get_categorized_paths ".bashrc" "" = (OTHER_FOLDER_NAME, HIDDEN_OR_CONFIG_FOLDER_NAME) ∧
    get_categorized_paths ".JPG" "photo" = ("images", "jpg") ∧
    get_categorized_paths ".xyz" "f" = (OTHER_FOLDER_NAME, "xyz") ∧
    ∀ ext stem : String, ∃ p : String × String, get_categorized_paths ext stem = p :=
  ⟨by decide, by decide, by decide, by decide, fun _ _ => ⟨_, rfl⟩⟩

/-!
## Claim C7 - one category per extension, case-insensitive lookup

Inside the table, `.json` and `.xml` occur in both the `documents` and the
`code` group lists, but the lookup iterates the groups in insertion order and
returns the first match, so the classification result is a single
deterministic pair for every extension, and the first normalization step
makes the lookup case-insensitive.
-/

/-- C7: for every extension the classifier yields exactly one
(category, subfolder) pair, and classifying an extension and classifying its
lower-cased form with the same stem give identical results. -/
theorem c7_lookup_unique_case_insensitive :
    ∀ ext stem : String,
      (∃! p : String × String, get_categorized_paths ext stem = p) ∧
      get_categorized_paths ext stem = get_categorized_paths (pyLower ext) stem := by
  intro ext stem
  refine ⟨⟨get_categorized_paths ext stem, rfl, fun _ h => h.symm⟩, ?_⟩
  simp only [get_categorized_paths, pyLower_idem]

/-! ## Injectivity of the decimal rendering and of the candidate names -/

/-- Value of a least-significant-first digit list. -/
def ofDigitsRev : List Nat → Nat
  | [] => 0
  | d :: ds => d + 10 * ofDigitsRev ds

theorem ofDigitsRev_toDigitsRevGo :
    ∀ fuel n, n < fuel → ofDigitsRev (toDigitsRevGo fuel n) = n := by
  intro fuel
  induction fuel with
  | zero => omega
  | succ f ih =>
    intro n h
    by_cases h10 : n < 10
    · simp [toDigitsRevGo, h10, ofDigitsRev]
    · have hdiv : n / 10 < n := Nat.div_lt_self (by omega) (by omega)
      simp only [toDigitsRevGo, if_neg h10, ofDigitsRev, ih (n / 10) (by omega)]
      omega

theorem toDigitsRevGo_lt_ten :
    ∀ fuel n, ∀ d ∈ toDigitsRevGo fuel n, n < 10 → d < 10 := by
  intro fuel
  induction fuel with
  | zero => intro n d hd _; simp [toDigitsRevGo] at hd
  | succ f _ => intro n d hd hn; simp [toDigitsRevGo, hn] at hd; omega

theorem toDigitsRevGo_all_lt_ten :
    ∀ fuel n, ∀ d ∈ toDigitsRevGo fuel n, d < 10 := by
  intro fuel
  induction fuel with
  | zero => intro n d hd; simp [toDigitsRevGo] at hd
  | succ f ih =>
    intro n d hd
    by_cases h10 : n < 10
    · simp [toDigitsRevGo, h10] at hd; omega
    · simp only [toDigitsRevGo, if_neg h10, List.mem_cons] at hd
      rcases hd with hd | hd
      · omega
      · exact ih (n / 10) d hd

theorem digitChar_inj {d e : Nat} (hd : d < 10) (he : e < 10)
    (h : digitChar d = digitChar e) : d = e := by
  have h1 : (digitChar d).toNat = 48 + d := toNat_charOfNat (by omega)
  have h2 : (digitChar e).toNat = 48 + e := toNat_charOfNat (by omega)
  have := congrArg Char.toNat h
  omega

theorem map_digitChar_inj :
    ∀ l1 l2 : List Nat, (∀ d ∈ l1, d < 10) → (∀ d ∈ l2, d < 10) →
      l1.map digitChar = l2.map digitChar → l1 = l2 := by
  intro l1
  induction l1 with
  | nil => intro l2 _ _ h; cases l2 <;> simp_all
  | cons a t ih =>
    intro l2 h1 h2 h
    cases l2 with
    | nil => simp_all
    | cons b u =>
      simp only [List.map_cons, List.cons.injEq] at h
      have ha : a = b := digitChar_inj (h1 a (by simp)) (h2 b (by simp)) h.1
      have ht : t = u := ih u (fun d hd => h1 d (by simp [hd]))
        (fun d hd => h2 d (by simp [hd])) h.2
      rw [ha, ht]

theorem natRepr_inj {m n : Nat} (h : natRepr m = natRepr n) : m = n := by
  have hdata : ((toDigitsRev m).map digitChar).reverse =
      ((toDigitsRev n).map digitChar).reverse := by
    injection h
  rw [List.reverse_inj] at hdata
  have := map_digitChar_inj (toDigitsRev m) (toDigitsRev n)
    (toDigitsRevGo_all_lt_ten (m + 1) m) (toDigitsRevGo_all_lt_ten (n + 1) n) hdata
  have hm := ofDigitsRev_toDigitsRevGo (m + 1) m (by omega)
  have hn := ofDigitsRev_toDigitsRevGo (n + 1) n (by omega)
  unfold toDigitsRev at this
  rw [← hm, ← hn, this]

theorem copyName_inj {base ext : String} {c d : Nat}
    (h : copyName base ext c = copyName base ext d) : c = d := by
  have hd : (base.data ++ "_copy".data ++ (natRepr c).data) ++ ext.data =
      (base.data ++ "_copy".data ++ (natRepr d).data) ++ ext.data := by
    have := congrArg String.data h
    simpa [copyName, String.data_append, List.append_assoc] using this
  have h2 := List.append_cancel_right hd
  have h3 : (natRepr c).data = (natRepr d).data := by
    rw [List.append_assoc, List.append_assoc] at h2
    exact List.append_cancel_left (List.append_cancel_left h2)
  exact natRepr_inj (String.ext h3)

/-! ## Pigeonhole: a free candidate exists within `existing.length + 1` -/

theorem exists_free_candidate (existing : List String) (base ext : String) :
    ∃ c, 1 ≤ c ∧ c ≤ existing.length + 1 ∧
      existing.contains (copyName base ext c) = false := by
  by_contra hall
  push_neg at hall
  have htaken : ∀ c, 1 ≤ c → c ≤ existing.length + 1 →
      copyName base ext c ∈ existing := by
    intro c h1 h2
    have := hall c h1 h2
    simpa using this
  set L := existing.length with hL
  have hnodup : ((List.range' 1 (L + 1)).map (copyName base ext)).Nodup :=
    (List.nodup_range' 1 (L + 1)).map (fun _ _ h => copyName_inj h)
  have hsub : ((List.range' 1 (L + 1)).map (copyName base ext)).toFinset ⊆
      existing.toFinset := by
    intro x hx
    simp only [List.mem_toFinset, List.mem_map] at hx
    rcases hx with ⟨c, hc, rfl⟩
    rw [List.mem_range'_1] at hc
    simpa [List.mem_toFinset] using htaken c hc.1 (by omega)
  have hcard1 : ((List.range' 1 (L + 1)).map (copyName base ext)).toFinset.card
      = L + 1 := by
    rw [List.toFinset_card_of_nodup hnodup]
    simp
  have := Finset.card_le_card hsub
  have hle := List.toFinset_card_le existing
  omega

/-! ## Correctness of the probing loop -/

theorem probeLoop_finds (existing : List String) (base ext : String) :
    ∀ fuel c,
      (∃ k, k < fuel ∧ existing.contains (copyName base ext (c + k)) = false) →
      ∃ N, probeLoop existing base ext c fuel = some N ∧ c ≤ N ∧
        existing.contains (copyName base ext N) = false ∧
        ∀ m, c ≤ m → m < N → existing.contains (copyName base ext m) = true := by
  intro fuel
  induction fuel with
  | zero => intro c h; rcases h with ⟨k, hk, _⟩; omega
  | succ f ih =>
    intro c h
    by_cases hc : existing.contains (copyName base ext c) = true
    · rcases h with ⟨k, hk, hfree⟩
      have hk0 : k ≠ 0 := by
        intro h0
        rw [h0, Nat.add_zero] at hfree
        rw [hfree] at hc
        exact Bool.false_ne_true hc
      have hnext : ∃ k2, k2 < f ∧
          existing.contains (copyName base ext (c + 1 + k2)) = false :=
        ⟨k - 1, by omega, by have : c + 1 + (k - 1) = c + k := by omega
                             rw [this]; exact hfree⟩
      rcases ih (c + 1) hnext with ⟨N, hrun, hle, hfreeN, hmin⟩
      refine ⟨N, ?_, by omega, hfreeN, ?_⟩
      · simp only [probeLoop, hc, if_true]
        exact hrun
      · intro m hm1 hm2
        by_cases hmc : m = c
        · rw [hmc]; exact hc
        · exact hmin m (by omega) hm2
    · simp only [Bool.not_eq_true] at hc
      exact ⟨c, by unfold probeLoop; rw [hc]; rfl, le_refl c, hc,
        fun m h1 h2 => by omega⟩

/-!
## Claim C10 - termination of the collision-probe loop

With `existing.length + 1` units of fuel the loop always reaches the
smallest free counter and returns it, so the `while` loop of lines 189-190
terminates on every finite destination-folder content.
-/

/-- C10: for every finite set of existing names there is a smallest counter
`N ≥ 1` whose candidate name is unused, and the probing loop (run with the
always-sufficient fuel `existing.length + 1`) terminates and returns it. -/
theorem c10_probe_terminates :
    ∀ (existing : List String) (base ext : String),
      ∃ N, probeLoop existing base ext 1 (existing.length + 1) = some N ∧
        1 ≤ N ∧ existing.contains (copyName base ext N) = false ∧
        ∀ m, 1 ≤ m → m < N → existing.contains (copyName base ext m) = true := by
  intro existing base ext
  rcases exists_free_candidate existing base ext with ⟨c, h1, h2, hfree⟩
  have hex : ∃ k, k < existing.length + 1 ∧
      existing.contains (copyName base ext (1 + k)) = false :=
    ⟨c - 1, by omega, by have : 1 + (c - 1) = c := by omega
                         rw [this]; exact hfree⟩
  rcases probeLoop_finds existing base ext (existing.length + 1) 1 hex with
    ⟨N, hrun, hle, hfreeN, hmin⟩
  exact ⟨N, hrun, hle, hfreeN, hmin⟩

/-!
## Claim C6 - the path allocator
-/

/-- C6: the allocator keeps a free desired name unchanged; for a taken name
it returns `stem_copyN.ext` for the smallest `N ≥ 1` whose candidate is
unused; and with `a.txt` and `a_copy1.txt` existing, requesting `a.txt`
yields `a_copy2.txt`. -/
theorem c6_allocate_least :
    (∀ existing name, existing.contains name = false →
      allocate existing name = some name) ∧
    (∀ existing name, existing.contains name = true →
      ∃ N, 1 ≤ N ∧
        allocate existing name =
          some (copyName (splitext name).1 (splitext name).2 N) ∧
        existing.contains (copyName (splitext name).1 (splitext name).2 N) = false ∧
        ∀ m, 1 ≤ m → m < N →
          existing.contains (copyName (splitext name).1 (splitext name).2 m) = true) ∧
    allocate ["a.txt", "a_copy1.txt"] "a.txt" = some "a_copy2.txt" := by
  refine ⟨fun existing name h => by unfold allocate; rw [h]; rfl,
    fun existing name h => ?_, by decide⟩
  rcases c10_probe_terminates existing (splitext name).1 (splitext name).2 with
    ⟨N, hrun, hle, hfree, hmin⟩
  refine ⟨N, hle, ?_, hfree, hmin⟩
  unfold allocate
  rw [h]
  simp only [if_true]
  rw [hrun]
  rfl

/-- Witness for C6 at concrete inputs: a free name is returned unchanged. -/
theorem c6_allocate_least_witness :
    allocate ["b.txt"] "a.txt" = some "a.txt" :=
  c6_allocate_least.1 ["b.txt"] "a.txt" (by decide)

/-! ## Lemmas about the duplicate-detection table (association list) -/

theorem lookup_append_of_some {l l2 : List (String × String)} {h : String}
    {v : String} (hl : l.lookup h = some v) : (l ++ l2).lookup h = some v := by
  induction l with
  | nil => simp [List.lookup] at hl
  | cons a t ih =>
    rw [List.cons_append]
    cases hbeq : h == a.1 with
    | true => simpa [List.lookup, hbeq] using hl
    | false =>
      simp only [List.lookup, hbeq] at hl ⊢
      exact ih hl

theorem lookup_none_not_mem {l : List (String × String)} {h : String}
    (hl : l.lookup h = none) : h ∉ l.map Prod.fst := by
  induction l with
  | nil => simp
  | cons a t ih =>
    cases hbeq : h == a.1 with
    | true => simp [List.lookup, hbeq] at hl
    | false =>
      simp only [List.lookup, hbeq] at hl
      simp only [List.map_cons, List.mem_cons]
      rintro (h1 | h1)
      · rw [h1] at hbeq; simp at hbeq
      · exact ih hl h1

/-!
## Claim C5 - read failure during hashing
-/

/-- C5: the hasher returns the failure signal `none` on a failed read, and
the traversal then appends exactly one error message, still increments the
processed count, leaves every other component of the state (written and
duplicate counts, hash table, write log) unchanged, and the run continues
with the next file. -/
theorem c5_hash_failure :
    (∀ digest, calculate_file_hash digest none = none) ∧
    (∀ digest compress s f, skippedFile compress f = false → f.readResult = none →
      processFile digest compress s f =
        { s with processed := s.processed + 1,
                 errors := s.errors ++ [msgHashFail f.name] }) ∧
    (∀ digest compress s f files,
      runFiles digest compress s (f :: files) =
        runFiles digest compress (processFile digest compress s f) files) := by
  refine ⟨fun _ => rfl, fun digest compress s f hskip hread => ?_, fun _ _ _ _ _ => rfl⟩
  unfold processFile
  rw [hskip, hread]
  rfl

/-- Witness for C5: a vanished file at a concrete state. -/
theorem c5_hash_failure_witness :
    processFile (fun _ => "h") true (initState [])
        ⟨"gone.txt", none, false, true, true, true, "w"⟩ =
      { initState [] with processed := 1, errors := [msgHashFail "gone.txt"] } :=
  c5_hash_failure.2.1 (fun _ => "h") true (initState [])
    ⟨"gone.txt", none, false, true, true, true, "w"⟩ (by decide) rfl

/-!
## Claim C9 - count arithmetic of the traversal loop
-/

/-- Counting behaviour of one loop iteration: processed grows by at most
one, written + duplicates grow by at most the processed increment, and a
hash failure or write failure increments neither written nor duplicates. -/
theorem processFile_count_step (digest : List Nat → String) (compress : Bool)
    (s : OrgState) (f : FileItem) :
    s.processed ≤ (processFile digest compress s f).processed ∧
    (processFile digest compress s f).processed ≤ s.processed + 1 ∧
    (processFile digest compress s f).written +
        (processFile digest compress s f).duplicates ≤
      s.written + s.duplicates +
        ((processFile digest compress s f).processed - s.processed) ∧
    (f.readResult = none →
      (processFile digest compress s f).written = s.written ∧
      (processFile digest compress s f).duplicates = s.duplicates) ∧
    (f.writeOk = false →
      (processFile digest compress s f).written = s.written ∧
      (processFile digest compress s f).duplicates = s.duplicates) := by
  cases hS : skippedFile compress f with
  | true => simp [processFile, hS]
  | false =>
    cases hR : f.readResult with
    | none =>
      simp [processFile, hS, hR, calculate_file_hash]
    | some blocks =>
      cases hL : List.lookup (digest blocks.flatten) s.known with
      | some v =>
        cases compress <;> cases hW : f.writeOk <;>
          simp [processFile, hS, hR, calculate_file_hash, hL, hW] <;> omega
      | none =>
        cases compress <;> cases hW : f.writeOk <;>
          cases hT : f.mkdirTopOk <;> cases hU : f.mkdirSubOk <;>
          simp [processFile, hS, hR, calculate_file_hash, hL, hW, hT, hU] <;>
          omega

/-- C9: each enumerated file increments the processed count by at most one
and the written plus duplicate counts by at most the processed increment (so
at most one of the two, and neither on a hash or write failure); consequently
written + duplicates ≤ processed is preserved by the whole loop and holds at
every iteration and in the final result. -/
theorem c9_written_duplicates_le_processed :
    (∀ digest compress s f,
      s.processed ≤ (processFile digest compress s f).processed ∧
      (processFile digest compress s f).processed ≤ s.processed + 1 ∧
      (processFile digest compress s f).written +
          (processFile digest compress s f).duplicates ≤
        s.written + s.duplicates +
          ((processFile digest compress s f).processed - s.processed) ∧
      (f.readResult = none →
        (processFile digest compress s f).written = s.written ∧
        (processFile digest compress s f).duplicates = s.duplicates) ∧
      (f.writeOk = false →
        (processFile digest compress s f).written = s.written ∧
        (processFile digest compress s f).duplicates = s.duplicates)) ∧
    (∀ digest compress files s, s.written + s.duplicates ≤ s.processed →
      (runFiles digest compress s files).written +
          (runFiles digest compress s files).duplicates ≤
        (runFiles digest compress s files).processed) := by
  refine ⟨processFile_count_step, ?_⟩
  intro digest compress files
  induction files with
  | nil => intro s h; exact h
  | cons f t ih =>
    intro s h
    have hstep := processFile_count_step digest compress s f
    have hrun : runFiles digest compress s (f :: t) =
        runFiles digest compress (processFile digest compress s f) t := rfl
    rw [hrun]
    exact ih (processFile digest compress s f) (by omega)

/-- Witness for C9 at a concrete state and file list. -/
theorem c9_written_duplicates_le_processed_witness :
    (runFiles (fun _ => "h") false (initState [])
        [⟨"x.txt", some [[1]], false, true, true, true, "w"⟩]).written +
      (runFiles (fun _ => "h") false (initState [])
        [⟨"x.txt", some [[1]], false, true, true, true, "w"⟩]).duplicates ≤
    (runFiles (fun _ => "h") false (initState [])
        [⟨"x.txt", some [[1]], false, true, true, true, "w"⟩]).processed :=
  c9_written_duplicates_le_processed.2 (fun _ => "h") false
    [⟨"x.txt", some [[1]], false, true, true, true, "w"⟩] (initState []) (by decide)

/-! ## Per-step behaviour of the hash table -/

/-- Success condition for writing an original: in archive mode the archive
append must succeed; in folder mode both category directories must be
creatable and the copy must succeed. -/
def origWriteOk (compress : Bool) (f : FileItem) : Bool :=
  if compress then f.writeOk else f.mkdirTopOk && f.mkdirSubOk && f.writeOk

/-- Path recorded in the hash table for a successfully written original:
the archive-internal categorized path in archive mode, the actual copied
path in folder mode. -/
def origPath (compress : Bool) (f : FileItem) : String :=
  if compress then
    let sp := splitext f.name
    let cat := get_categorized_paths sp.2 sp.1
    joinPath (joinPath cat.1 cat.2) f.name
  else f.writtenPath

/-- One step never deletes or rebinds an existing hash table entry. -/
theorem processFile_lookup_mono (digest : List Nat → String) (compress : Bool)
    (s : OrgState) (f : FileItem) {h v : String}
    (hv : s.known.lookup h = some v) :
    (processFile digest compress s f).known.lookup h = some v := by
  cases hS : skippedFile compress f with
  | true => simp [processFile, hS, hv]
  | false =>
    cases hR : f.readResult with
    | none => simp [processFile, hS, hR, calculate_file_hash, hv]
    | some blocks =>
      cases hL : List.lookup (digest blocks.flatten) s.known with
      | some w =>
        cases compress <;> cases hW : f.writeOk <;>
          simp [processFile, hS, hR, calculate_file_hash, hL, hW, hv]
      | none =>
        cases compress <;> cases hW : f.writeOk <;>
          cases hT : f.mkdirTopOk <;> cases hU : f.mkdirSubOk <;>
          simp [processFile, hS, hR, calculate_file_hash, hL, hW, hT, hU, hv,
            lookup_append_of_some hv]

/-- One step keeps the keys of the hash table duplicate-free: a key is
appended only in the branch where its lookup just returned `none`. -/
theorem processFile_keys_nodup (digest : List Nat → String) (compress : Bool)
    (s : OrgState) (f : FileItem)
    (hnd : (s.known.map Prod.fst).Nodup) :
    ((processFile digest compress s f).known.map Prod.fst).Nodup := by
  cases hS : skippedFile compress f with
  | true => simpa [processFile, hS] using hnd
  | false =>
    cases hR : f.readResult with
    | none => simpa [processFile, hS, hR, calculate_file_hash] using hnd
    | some blocks =>
      cases hL : List.lookup (digest blocks.flatten) s.known with
      | some w =>
        cases compress <;> cases hW : f.writeOk <;>
          simp [processFile, hS, hR, calculate_file_hash, hL, hW, hnd]
      | none =>
        have hnotmem := lookup_none_not_mem hL
        cases compress <;> cases hW : f.writeOk <;>
          cases hT : f.mkdirTopOk <;> cases hU : f.mkdirSubOk <;>
          simp [processFile, hS, hR, calculate_file_hash, hL, hW, hT, hU,
            List.nodup_append, hnd, hnotmem]

/-!
## Claim C1 - the SeenHashIndex invariant
-/

/-- C1: across one run, (1) an entry of the hash table is never rebound,
(2) the keys stay duplicate-free (each hash is added at most once), (3) a
file whose hash is already in the table never registers a new key and is
routed to the duplicates area (counted as a duplicate exactly when its write
to the duplicates area succeeds), and (4) a fresh hash is registered, with
the written count incremented, exactly when its first occurrence is
successfully written to output as an original — in both output modes. -/
theorem c1_seen_hash_index :
    (∀ digest compress s files (h v : String), s.known.lookup h = some v →
      (runFiles digest compress s files).known.lookup h = some v) ∧
    (∀ digest compress s files, (s.known.map Prod.fst).Nodup →
      ((runFiles digest compress s files).known.map Prod.fst).Nodup) ∧
    (∀ digest compress s f (h v : String), skippedFile compress f = false →
      calculate_file_hash digest f.readResult = some h →
      s.known.lookup h = some v →
      (processFile digest compress s f).known = s.known ∧
      (processFile digest compress s f).written = s.written ∧
      (processFile digest compress s f).duplicates =
        s.duplicates + (if f.writeOk then 1 else 0) ∧
      (f.writeOk = true →
        (processFile digest compress s f).writes =
          s.writes ++ [(DUPLICATES_FOLDER_NAME, f.name)])) ∧
    (∀ digest compress s f (h : String), skippedFile compress f = false →
      calculate_file_hash digest f.readResult = some h →
      s.known.lookup h = none →
      (origWriteOk compress f = true →
        (processFile digest compress s f).known =
          s.known ++ [(h, origPath compress f)] ∧
        (processFile digest compress s f).written = s.written + 1) ∧
      (origWriteOk compress f = false →
        (processFile digest compress s f).known = s.known ∧
        (processFile digest compress s f).written = s.written)) := by
  refine ⟨?_, ?_, ?_, ?_⟩
  · intro digest compress s files
    induction files generalizing s with
    | nil => intro h v hv; exact hv
    | cons f t ih =>
      intro h v hv
      exact ih (processFile digest compress s f) h v
        (processFile_lookup_mono digest compress s f hv)
  · intro digest compress s files
    induction files generalizing s with
    | nil => intro hnd; exact hnd
    | cons f t ih =>
      intro hnd
      exact ih (processFile digest compress s f)
        (processFile_keys_nodup digest compress s f hnd)
  · intro digest compress s f h v hS hhash hv
    cases hR : f.readResult with
    | none => rw [hR] at hhash; exact absurd hhash (by simp [calculate_file_hash])
    | some blocks =>
      rw [hR] at hhash
      have hh : digest blocks.flatten = h := by
        simpa [calculate_file_hash] using hhash
      subst hh
      cases compress <;> cases hW : f.writeOk <;>
        simp [processFile, hS, hR, calculate_file_hash, hv, hW]
  · intro digest compress s f h hS hhash hnone
    cases hR : f.readResult with
    | none => rw [hR] at hhash; exact absurd hhash (by simp [calculate_file_hash])
    | some blocks =>
      rw [hR] at hhash
      have hh : digest blocks.flatten = h := by
        simpa [calculate_file_hash] using hhash
      subst hh
      cases compress <;> cases hW : f.writeOk <;>
        cases hT : f.mkdirTopOk <;> cases hU : f.mkdirSubOk <;>
        simp [processFile, hS, hR, calculate_file_hash, hnone, hW, hT, hU,
          origWriteOk, origPath]

/-- Witness for C1 at concrete inputs: a second file with an already-known
hash leaves the table unchanged and increments only the duplicate count. -/
theorem c1_seen_hash_index_witness :
    (processFile (fun _ => "h") true
        ⟨[("h", "p")], 1, 1, 0, [], []⟩
        ⟨"dup.txt", some [[1]], false, true, true, true, "w"⟩).known =
      [("h", "p")] ∧
    (processFile (fun _ => "h") true
        ⟨[("h", "p")], 1, 1, 0, [], []⟩
        ⟨"dup.txt", some [[1]], false, true, true, true, "w"⟩).written = 1 ∧
    (processFile (fun _ => "h") true
        ⟨[("h", "p")], 1, 1, 0, [], []⟩
        ⟨"dup.txt", some [[1]], false, true, true, true, "w"⟩).duplicates =
      0 + (if true then 1 else 0) ∧
    (true = true →
      (processFile (fun _ => "h") true
          ⟨[("h", "p")], 1, 1, 0, [], []⟩
          ⟨"dup.txt", some [[1]], false, true, true, true, "w"⟩).writes =
        [] ++ [(DUPLICATES_FOLDER_NAME, "dup.txt")]) :=
  c1_seen_hash_index.2.2.1 (fun _ => "h") true
    ⟨[("h", "p")], 1, 1, 0, [], []⟩
    ⟨"dup.txt", some [[1]], false, true, true, true, "w"⟩ "h" "p"
    (by decide) rfl (by decide)

/-!
## Claim C8 - setup failures abort the run
-/

/-- C8: an invalid source directory, an uncreatable destination directory,
or (in archive mode) an unopenable archive file each abort the run
immediately with zero processed, written and duplicate counts, an empty
output location, and a populated error list with an explanatory message. -/
theorem c8_setup_failure_aborts :
    ∀ env compress digest files,
      (env.sourceIsDir = false →
        organize_files_in_folder env compress digest files =
          (0, 0, 0, [msgSourceInvalid env.sourcePath], "")) ∧
      (env.sourceIsDir = true → env.destIsDir = false → env.destExists = false →
       env.destCreateOk = false →
        organize_files_in_folder env compress digest files =
          (0, 0, 0, [msgMkdirFail env.destRoot, msgDestInvalid env.destRoot], "")) ∧
      (env.sourceIsDir = true → env.destIsDir = true → env.archiveOpenOk = false →
        organize_files_in_folder env true digest files =
          (0, 0, 0,
            [msgArchiveOpenFail (joinPath env.destRoot (outputBaseName env ++ ".tar.xz"))],
            "")) := by
  intro env compress digest files
  refine ⟨fun h1 => ?_, fun h1 h2 h3 h4 => ?_, fun h1 h2 h3 => ?_⟩
  · simp [organize_files_in_folder, h1]
  · simp [organize_files_in_folder, create_directory_if_not_exists, h1, h2, h3, h4]
  · simp [organize_files_in_folder, h1, h2, h3]

/-- Witness for C8 at a concrete environment with an invalid source. -/
theorem c8_setup_failure_aborts_witness :
    organize_files_in_folder
        ⟨false, "src", "src", true, true, true, "dest", "ts",
         true, false, true, false, true, true, true⟩
        false (fun _ => "h") [] =
      (0, 0, 0, [msgSourceInvalid "src"], "") :=
  (c8_setup_failure_aborts
      ⟨false, "src", "src", true, true, true, "dest", "ts",
       true, false, true, false, true, true, true⟩
      false (fun _ => "h") []).1 rfl

/-! ## Characterisation of the pruned walk -/

/-- A file is reachable in `t` without crossing a pruned directory: it lies
in the current directory, or in a child directory that the walk does not
prune and in which it is again reachable. -/
inductive Reach (prune : String → Bool) : FTree → FileItem → Prop where
  | here {n : String} {fs : List FileItem} {subs : List FTree} {f : FileItem} :
      f ∈ fs → Reach prune (.node n fs subs) f
  | child {n : String} {fs : List FileItem} {subs : List FTree} {c : FTree}
      {f : FileItem} : c ∈ subs → prune c.dname = false → Reach prune c f →
      Reach prune (.node n fs subs) f

/-- Walking a list of sibling directories enumerates a file exactly when
some unpruned sibling's walk enumerates it. -/
theorem mem_walkList_iff (prune : String → Bool) (f : FileItem)
    (ts : List FTree) :
    f ∈ walkList prune ts ↔
      ∃ c ∈ ts, prune c.dname = false ∧ f ∈ walkFiles prune c := by
  induction ts with
  | nil => simp [walkList]
  | cons t ts ih =>
    simp only [walkList, List.mem_append, ih]
    constructor
    · rintro (h1 | ⟨c, hc, hp, hm⟩)
      · cases hp : prune t.dname with
        | true => rw [hp] at h1; simp at h1
        | false =>
          rw [hp] at h1
          simp only [Bool.false_eq_true, if_false] at h1
          exact ⟨t, List.mem_cons_self t ts, hp, h1⟩
      · exact ⟨c, List.mem_cons_of_mem t hc, hp, hm⟩
    · rintro ⟨c, hc, hp, hm⟩
      rcases List.mem_cons.1 hc with rfl | hc2
      · left
        rw [hp]
        simpa using hm
      · right
        exact ⟨c, hc2, hp, hm⟩

/-- Every enumerated file is reachable without crossing a pruned
directory. -/
theorem mem_walkFiles_reach (prune : String → Bool) (f : FileItem) :
    ∀ t : FTree, f ∈ walkFiles prune t → Reach prune t f
  | .node n fs subs => by
    intro hmem
    simp only [walkFiles, List.mem_append, mem_walkList_iff] at hmem
    rcases hmem with hf | ⟨c, hc, hp, hm⟩
    · exact .here hf
    · exact .child hc hp (mem_walkFiles_reach prune f c hm)
termination_by t => sizeOf t
decreasing_by
  simp_wf
  have := List.sizeOf_lt_of_mem hc
  omega

/-- Every reachable file is enumerated by the pruned walk. -/
theorem reach_mem_walkFiles (prune : String → Bool) (f : FileItem)
    {t : FTree} (hr : Reach prune t f) : f ∈ walkFiles prune t := by
  induction hr with
  | here hf => exact List.mem_append.2 (Or.inl hf)
  | child hc hp _ ih =>
    exact List.mem_append.2 (Or.inr ((mem_walkList_iff _ _ _).2 ⟨_, hc, hp, ih⟩))

/-- The pruned walk enumerates exactly the files reachable without crossing
a pruned directory. -/
theorem mem_walkFiles_iff (prune : String → Bool) (f : FileItem) (t : FTree) :
    f ∈ walkFiles prune t ↔ Reach prune t f :=
  ⟨mem_walkFiles_reach prune f t, reach_mem_walkFiles prune f⟩

mutual

/-- If no directory below the root is pruned, the pruned walk enumerates the
same files as the unpruned walk. -/
theorem walkFiles_noPruned (prune : String → Bool) :
    ∀ t : FTree, noPruned prune t = true →
      walkFiles prune t = walkFiles (fun _ => false) t
  | .node n fs subs => by
    intro h
    simp only [walkFiles]
    rw [walkList_noPruned prune subs (by simpa [noPruned] using h)]

theorem walkList_noPruned (prune : String → Bool) :
    ∀ ts : List FTree, noPrunedList prune ts = true →
      walkList prune ts = walkList (fun _ => false) ts
  | [] => fun _ => rfl
  | t :: ts => by
    intro h
    simp only [noPrunedList, Bool.and_eq_true, Bool.not_eq_true'] at h
    rcases h with ⟨⟨hname, hsub⟩, hrest⟩
    simp only [walkList, hname, if_false]
    rw [walkFiles_noPruned prune t hsub, walkList_noPruned prune ts hrest]

end

/-- Processed-count effect of one step: exactly the non-skipped files are
counted. -/
theorem processFile_processed (digest : List Nat → String) (compress : Bool)
    (s : OrgState) (f : FileItem) :
    (processFile digest compress s f).processed =
      s.processed + (if skippedFile compress f then 0 else 1) := by
  cases hS : skippedFile compress f with
  | true => simp [processFile, hS]
  | false =>
    cases hR : f.readResult with
    | none => simp [processFile, hS, hR, calculate_file_hash]
    | some blocks =>
      cases hL : List.lookup (digest blocks.flatten) s.known with
      | some v =>
        cases compress <;> cases hW : f.writeOk <;>
          simp [processFile, hS, hR, calculate_file_hash, hL, hW]
      | none =>
        cases compress <;> cases hW : f.writeOk <;>
          cases hT : f.mkdirTopOk <;> cases hU : f.mkdirSubOk <;>
          simp [processFile, hS, hR, calculate_file_hash, hL, hW, hT, hU]

/-- The processed count of a run is the number of non-skipped enumerated
files. -/
theorem runFiles_processed (digest : List Nat → String) (compress : Bool) :
    ∀ files s, (runFiles digest compress s files).processed =
      s.processed + (files.filter (fun f => !skippedFile compress f)).length := by
  intro files
  induction files with
  | nil => intro s; simp [runFiles]
  | cons f t ih =>
    intro s
    have hstep : runFiles digest compress s (f :: t) =
        runFiles digest compress (processFile digest compress s f) t := rfl
    rw [hstep, ih, processFile_processed]
    cases hS : skippedFile compress f <;> simp [List.filter, hS]
    all_goals omega

/-!
## Claim C3 - the pre-flight count versus the traversal

The claim fails on the code: `count_files_in_folder` prunes every directory
named after a category group (plus `other` and `duplicates`) anywhere in the
source tree, while the traversal prunes only the output root basename and
`duplicates` (folder mode) or nothing (archive mode).  A source tree with a
user directory named `images` separates the two counts.
-/

def cexFile : FileItem := ⟨"a.txt", some [[1]], false, true, true, true, "w"⟩

def cexTreeImages : FTree := .node "src" [] [.node "images" [cexFile] []]

/-- Counterexample to C3: over a source tree holding one file inside a
pre-existing directory named `images`, the pre-flight count returns 0 while
the archive-mode traversal processes 1 file, so the two disagree. -/
theorem c3_counterexample :
    count_files_in_folder cexTreeImages = 0 ∧
    (runFiles (fun _ => "h") true (initState [])
        (walkFiles (orgPrune true "file_organizer_src_ts") cexTreeImages)).processed
      = 1 ∧
    count_files_in_folder cexTreeImages ≠
      (runFiles (fun _ => "h") true (initState [])
        (walkFiles (orgPrune true "file_organizer_src_ts") cexTreeImages)).processed :=
  ⟨by decide, by decide, by decide⟩

/-- C3 amended: the pre-flight count and the traversal apply different
exclusion rules; the count equals the traversal's processed number only for
trees in which neither rule prunes anything — no directory named after a
category group, `other`, `duplicates`, or the output root basename — and no
enumerated file lies inside the output root. -/
theorem c3_count_matches_traversal :
    ∀ digest compress outBase t errs,
      noPruned countPrune t = true →
      noPruned (orgPrune compress outBase) t = true →
      (∀ f ∈ walkFiles (fun _ => false) t, f.inOutputRoot = false) →
      count_files_in_folder t =
        (runFiles digest compress (initState errs)
          (walkFiles (orgPrune compress outBase) t)).processed := by
  intro digest compress outBase t errs h1 h2 h3
  rw [count_files_in_folder, walkFiles_noPruned countPrune t h1,
    walkFiles_noPruned _ t h2, runFiles_processed]
  have hall : ∀ f ∈ walkFiles (fun _ => false) t,
      (!skippedFile compress f) = true := by
    intro f hf
    simp [skippedFile, h3 f hf]
  rw [List.filter_eq_self.mpr hall]
  simp [initState]

/-- Witness for C3 amended at a concrete tree without colliding names. -/
theorem c3_count_matches_traversal_witness :
    count_files_in_folder (.node "src" [cexFile] []) =
      (runFiles (fun _ => "h") true (initState [])
        (walkFiles (orgPrune true "ob") (.node "src" [cexFile] []))).processed :=
  c3_count_matches_traversal (fun _ => "h") true "ob" (.node "src" [cexFile] []) []
    (by decide) (by decide) (by decide)

/-!
## Claim C4 - which files the walk excludes

The claim fails on the code: in folder mode the traversal prunes every
directory named `duplicates` (and every directory named like the output root
basename) anywhere in the source tree, even when that directory is a
pre-existing source directory that is not inside the just-created output
root.
-/

def cexFileDup : FileItem := ⟨"b.txt", some [[2]], false, true, true, true, "w"⟩

def cexTreeDup : FTree := .node "src" [] [.node "duplicates" [cexFileDup] []]

/-- Counterexample to C4: a file inside a pre-existing source directory
named `duplicates` is not inside the output root, yet the folder-mode walk
never enumerates it. -/
theorem c4_counterexample :
    cexFileDup ∈ walkFiles (fun _ => false) cexTreeDup ∧
    cexFileDup.inOutputRoot = false ∧
    cexFileDup ∉ walkFiles (orgPrune false "file_organizer_src_ts") cexTreeDup :=
  ⟨by decide, by decide, by decide⟩

/-- C4 amended: the walk enumerates exactly the files reachable without
crossing a pruned directory, where folder mode prunes every directory named
like the output root basename or named `duplicates` wherever it occurs and
archive mode prunes nothing; an enumerated file is then skipped (leaving the
whole state, including the processed count, unchanged) exactly when the run
is in folder mode and the path-prefix test against the output root holds,
and otherwise it is counted as processed. -/
theorem c4_walk_exclusion_rule :
    (∀ (prune : String → Bool) (f : FileItem) (t : FTree),
      f ∈ walkFiles prune t ↔ Reach prune t f) ∧
    (∀ outBase t,
      walkFiles (orgPrune true outBase) t = walkFiles (fun _ => false) t) ∧
    (∀ digest compress s f,
      (skippedFile compress f = true → processFile digest compress s f = s) ∧
      (skippedFile compress f = false →
        (processFile digest compress s f).processed = s.processed + 1)) := by
  refine ⟨mem_walkFiles_iff, ?_, ?_⟩
  · intro outBase t
    rfl
  · intro digest compress s f
    constructor
    · intro h
      simp [processFile, h]
    · intro h
      rw [processFile_processed, h]
      simp

/-- Witness for C4 at a concrete skipped file: folder mode, path inside the
output root, state unchanged. -/
theorem c4_walk_exclusion_rule_witness :
    processFile (fun _ => "h") false (initState [])
        ⟨"in.txt", some [[3]], true, true, true, true, "w"⟩ = initState [] :=
  (c4_walk_exclusion_rule.2.2 (fun _ => "h") false (initState [])
    ⟨"in.txt", some [[3]], true, true, true, true, "w"⟩).1 (by decide)

end FileOrganizer
